import Mathlib

/-!
# NOMAD protocol core — shallow embedding and verification

This file embeds, in Lean 4, the parts of the `nomad-rs` repository that the
verified claims are about, and proves (or refutes) each claim against the
embedding.

Conventions of the embedding:

* Rust machine integers (`u32`, `u64`, `usize`) are modelled as `Nat`; where
  wrap-around or truncation matters the code takes an explicit `% 2 ^ w`,
  and saturating operations (`saturating_add`, `saturating_mul`) are modelled
  with an explicit `min _ (2 ^ 64 - 1)`.
* `std::time::Instant` and `Duration` are modelled as explicit time values
  passed in by the caller (nanoseconds as `Nat`, or exact rationals where the
  Rust code computes in `f64`); the `f64` smoothing arithmetic of the RTT
  estimators is modelled by exact rational arithmetic.
* Fallible Rust functions returning `Result<T, E>` become `Except E T`
  (or a pair of result and post-state for `&mut self` methods).
* AEAD primitives and HKDF key derivation are cryptographic black boxes for
  every claim below; they are abstracted as function parameters, and key
  material as an opaque type parameter.

Each definition names, in its doc comment, the Rust item it embeds.
-/

namespace Nomad

/-- `u64::MAX + 1`, the modulus of 64-bit arithmetic. -/
def M64 : Nat := 2 ^ 64

/-- `usize::MAX` on a 64-bit target: saturation bound of `saturating_add`/`mul`. -/
def USIZE_MAX : Nat := 2 ^ 64 - 1

/-- `usize::saturating_add`. -/
def satAdd (a b : Nat) : Nat := min (a + b) USIZE_MAX

/-- `usize::saturating_mul`. -/
def satMul (a b : Nat) : Nat := min (a * b) USIZE_MAX

/-- `src/core/constants.rs`: `REJECT_AFTER_MESSAGES: u64 = u64::MAX`. -/
def REJECT_AFTER_MESSAGES : Nat := 2 ^ 64 - 1

/-- `src/core/constants.rs`: `MAX_EPOCH: u32 = u32::MAX`. -/
def MAX_EPOCH : Nat := 2 ^ 32 - 1

/-- `src/core/constants.rs`: `REPLAY_WINDOW_SIZE: usize = 2048` (bits). -/
def REPLAY_WINDOW_SIZE : Nat := 2048

/-- `src/core/error.rs`: the crypto error variants used by the embedded code. -/
inductive CryptoError where
  | replayDetected
  | counterExhaustion
  | epochExhaustion
  | decryptionFailed
  | encryptionFailed
  deriving DecidableEq, Repr

/-- `src/crypto/mod.rs`: `Role` (initiator or responder). -/
inductive Role where
  | initiator
  | responder
  deriving DecidableEq, Repr

/-! ## Rekey state — `src/crypto/rekey.rs`

`RekeyState` keeps the epoch and the per-epoch counters. The `epoch_start`
timestamp field only feeds the time-based limits (`should_rekey`,
`keys_expired`), which no claim is about, so it is not carried here. -/

/-- `src/crypto/rekey.rs`: `struct RekeyState` (epoch and message counters;
`u32` / `u64` fields as `Nat` with the range invariants enforced by the
guarded operations below). -/
structure RekeyState where
  epoch : Nat
  send_count : Nat
  recv_count : Nat
  deriving DecidableEq, Repr

namespace RekeyState

/-- `RekeyState::new`. -/
def new : RekeyState := ⟨0, 0, 0⟩

/-- `RekeyState::increment_send`: fails with `CounterExhaustion` when the
counter has reached `REJECT_AFTER_MESSAGES`, otherwise returns the
pre-increment counter and the incremented state. -/
def increment_send (s : RekeyState) : Except CryptoError (Nat × RekeyState) :=
  if s.send_count = REJECT_AFTER_MESSAGES then
    .error .counterExhaustion
  else
    .ok (s.send_count, { s with send_count := s.send_count + 1 })

/-- `RekeyState::record_recv`. -/
def record_recv (s : RekeyState) (counter : Nat) : RekeyState :=
  if counter ≥ s.recv_count then { s with recv_count := counter + 1 } else s

/-- `RekeyState::advance_epoch`: fails with `EpochExhaustion` at `MAX_EPOCH`,
otherwise increments the epoch and resets both counters. -/
def advance_epoch (s : RekeyState) : Except CryptoError RekeyState :=
  if s.epoch = MAX_EPOCH then
    .error .epochExhaustion
  else
    .ok { epoch := s.epoch + 1, send_count := 0, recv_count := 0 }

end RekeyState

/-! ## Anti-replay window — `src/crypto/session.rs`

`ReplayWindow` keeps a `[u64; 32]` bitmap (2048 bits) plus the highest
accepted nonce. The bitmap is embedded as a `List Nat` of the 32 words, each
kept `< 2 ^ 64` by explicit truncation exactly where the Rust shifts
truncate. Bit `d` of the window (word `d / 64`, bit offset `d % 64`) marks
the nonce at offset `d = highest - nonce` as seen. -/

/-- `src/crypto/session.rs`: `struct ReplayWindow`. -/
structure ReplayWindow where
  bitmap : List Nat
  highest : Nat
  initialized : Bool
  deriving DecidableEq, Repr

namespace ReplayWindow

/-- `ReplayWindow::new`. -/
def new : ReplayWindow :=
  { bitmap := List.replicate 32 0, highest := 0, initialized := false }

/-- `ReplayWindow::reset`. -/
def reset (_w : ReplayWindow) : ReplayWindow := new

/-- `ReplayWindow::is_replay` (pure check, no update). -/
def is_replay (w : ReplayWindow) (nonce : Nat) : Bool :=
  if !w.initialized then false
  else if nonce > w.highest then false
  else
    let diff := w.highest - nonce
    if diff ≥ REPLAY_WINDOW_SIZE then true
    else (w.bitmap.getD (diff / 64) 0) &&& (1 <<< (diff % 64)) ≠ 0

/-- `ReplayWindow::is_seen` (internal helper of `check_and_update`). -/
def is_seen (w : ReplayWindow) (nonce : Nat) : Bool :=
  if nonce > w.highest then false
  else
    let diff := w.highest - nonce
    if diff ≥ REPLAY_WINDOW_SIZE then true
    else (w.bitmap.getD (diff / 64) 0) &&& (1 <<< (diff % 64)) ≠ 0

/-- `ReplayWindow::mark_seen`. -/
def mark_seen (w : ReplayWindow) (nonce : Nat) : ReplayWindow :=
  if nonce > w.highest then w
  else
    let diff := w.highest - nonce
    if diff ≥ REPLAY_WINDOW_SIZE then w
    else
      let word := (w.bitmap.getD (diff / 64) 0) ||| (1 <<< (diff % 64))
      { w with bitmap := w.bitmap.set (diff / 64) word }

/-- The bit-shift carry loop of `ReplayWindow::shift_window`
(`for i in (0..self.bitmap.len()).rev() { ... }`): the input list is the
bitmap in DESCENDING word order (index 31 first), mirroring the loop's
iteration order, and the carry variable is threaded exactly as in the Rust
code — each word receives the carry extracted from the previously visited
(higher-index) word. `(b <<< sb) % 2 ^ 64` is the value-truncating `u64`
left shift. -/
def shiftBitsLoop (sb : Nat) : Nat → List Nat → List Nat
  | _, [] => []
  | carry, b :: rest =>
      let newCarry := b >>> (64 - sb)
      (((b <<< sb) % M64) ||| carry) :: shiftBitsLoop sb newCarry rest

/-- `ReplayWindow::shift_window`. The whole-word phase
(`bitmap[i] = bitmap[i - shift_words]`, low words cleared) is written as the
equivalent re-indexing map; the bit phase reuses `shiftBitsLoop` on the
reversed word list, matching the downward loop of the source. -/
def shift_window (w : ReplayWindow) (shift : Nat) : ReplayWindow :=
  if shift ≥ REPLAY_WINDOW_SIZE then
    { w with bitmap := List.replicate 32 0 }
  else
    let sw := shift / 64
    let sb := shift % 64
    let b1 :=
      if sw > 0 then
        (List.range 32).map (fun i => if i < sw then 0 else w.bitmap.getD (i - sw) 0)
      else w.bitmap
    let b2 :=
      if sb > 0 then (shiftBitsLoop sb 0 b1.reverse).reverse
      else b1
    { w with bitmap := b2 }

/-- `ReplayWindow::check_and_update`. Returns the result together with the
updated window (the Rust method mutates `&mut self`). -/
def check_and_update (w : ReplayWindow) (nonce : Nat) :
    Except CryptoError Unit × ReplayWindow :=
  if !w.initialized then
    let w1 := { w with highest := nonce }
    let w2 := mark_seen w1 nonce
    (.ok (), { w2 with initialized := true })
  else if nonce > w.highest then
    let shift := nonce - w.highest
    let w1 := shift_window w shift
    let w2 := { w1 with highest := nonce }
    (.ok (), mark_seen w2 nonce)
  else
    let diff := w.highest - nonce
    if diff ≥ REPLAY_WINDOW_SIZE then (.error .replayDetected, w)
    else if is_seen w nonce then (.error .replayDetected, w)
    else (.ok (), mark_seen w nonce)

/-- Run `check_and_update` over a list of nonces, collecting the
accept/reject verdicts. -/
def runNonces (w : ReplayWindow) : List Nat → List Bool × ReplayWindow
  | [] => ([], w)
  | n :: ns =>
      let (r, w') := check_and_update w n
      let (rs, w'') := runNonces w' ns
      ((match r with | .ok _ => true | .error _ => false) :: rs, w'')

end ReplayWindow

/-! ## Crypto session — `src/crypto/session.rs`, `src/crypto/rekey.rs`

Key material (`SessionKey`) is opaque to every claim, so it is a type
parameter `κ`; the AEAD primitives and the HKDF rekey derivation are
function parameters. A nonce is determined by `(epoch, direction, counter)`
and the AAD by `(frame_type, flags, session_id, counter)`, so both are
embedded as those tuples. `OldKeyRetention` holds the optional retained
`(initiator_key, responder_key)` pair; its `retained_at` clock comparison
(`elapsed vs OLD_KEY_RETENTION`) is abstracted as a boolean
`retention_expired` input where it is consulted. -/

/-- `src/crypto/nonce.rs`: `Direction`. -/
inductive Direction where
  | initiatorToResponder
  | responderToInitiator
  deriving DecidableEq, Repr

/-- `Direction::opposite`. -/
def Direction.opposite : Direction → Direction
  | .initiatorToResponder => .responderToInitiator
  | .responderToInitiator => .initiatorToResponder

/-- `src/crypto/nonce.rs`: `construct_nonce(epoch, direction, counter)` —
the nonce is a pure function of this triple, embedded as the triple itself. -/
def construct_nonce (epoch : Nat) (dir : Direction) (counter : Nat) :
    Nat × Direction × Nat :=
  (epoch, dir, counter)

/-- `src/crypto/aead.rs`: `construct_aad(frame_type, flags, session_id,
counter)` — likewise embedded as the tuple. -/
def construct_aad (frame_type flags session_id counter : Nat) :
    Nat × Nat × Nat × Nat :=
  (frame_type, flags, session_id, counter)

/-- `src/crypto/session.rs`: `struct CryptoSession` (fields that the claims
touch: role, the two current keys, rekey state, replay window and the
old-key slot; `session_id` as a `Nat`, `handshake_hash` and `rekey_auth_key`
are inert for the claims and folded into the abstract derive function). -/
structure CryptoSession (κ : Type) where
  session_id : Nat
  role : Role
  send_key : κ
  recv_key : κ
  rekey_state : RekeyState
  replay_window : ReplayWindow
  old_keys : Option (κ × κ)

namespace CryptoSession

variable {κ : Type}

/-- `CryptoSession::send_direction`. -/
def send_direction (s : CryptoSession κ) : Direction :=
  match s.role with
  | .initiator => .initiatorToResponder
  | .responder => .responderToInitiator

/-- `CryptoSession::recv_direction`. -/
def recv_direction (s : CryptoSession κ) : Direction :=
  s.send_direction.opposite

/-- `CryptoSession::get_old_recv_key`: pick the retained key for the
receiving direction (the retained pair is `(initiator_key, responder_key)`).
The `within_retention_window` clock check is the `retention_expired`
argument of `decrypt_frame`. -/
def get_old_recv_key (s : CryptoSession κ) : Option κ :=
  match s.old_keys, s.role with
  | none, _ => none
  | some (ik, _), .responder => some ik
  | some (_, rk), .initiator => some rk

/-- `CryptoSession::encrypt_frame`. `encryptFn` abstracts
`aead::encrypt(key, nonce, aad, plaintext)`; `none` stands for its only
error, `EncryptionFailed`. Returns `(counter, ciphertext)` and the updated
session. -/
def encrypt_frame
    (encryptFn : κ → Nat × Direction × Nat → Nat × Nat × Nat × Nat → List Nat →
      Option (List Nat))
    (s : CryptoSession κ) (frame_type flags : Nat) (plaintext : List Nat) :
    Except CryptoError (Nat × List Nat) × CryptoSession κ :=
  match s.rekey_state.increment_send with
  | .error e => (.error e, s)
  | .ok (counter, rk') =>
      let s1 := { s with rekey_state := rk' }
      let nonce := construct_nonce rk'.epoch s.send_direction counter
      let aad := construct_aad frame_type flags s.session_id counter
      match encryptFn s.send_key nonce aad plaintext with
      | none => (.error .encryptionFailed, s1)
      | some ct => (.ok (counter, ct), s1)

/-- `CryptoSession::decrypt_frame`. `decryptFn` abstracts
`aead::decrypt(key, nonce, aad, ciphertext)` (`none` = authentication
failure); `retention_expired` abstracts the `old_keys` clock comparisons at
the call instant (`clear_if_expired` / `within_retention_window`). Returns
the plaintext-or-error and the updated session. -/
def decrypt_frame
    (decryptFn : κ → Nat × Direction × Nat → Nat × Nat × Nat × Nat → List Nat →
      Option (List Nat))
    (retention_expired : Bool)
    (s : CryptoSession κ) (frame_type flags nonce_counter : Nat)
    (ciphertext : List Nat) :
    Except CryptoError (List Nat) × CryptoSession κ :=
  if s.replay_window.is_replay nonce_counter then
    (.error .replayDetected, s)
  else
    let nonce := construct_nonce s.rekey_state.epoch s.recv_direction nonce_counter
    let aad := construct_aad frame_type flags s.session_id nonce_counter
    match decryptFn s.recv_key nonce aad ciphertext with
    | some plaintext =>
        let w' := (s.replay_window.check_and_update nonce_counter).snd
        let rk' := s.rekey_state.record_recv nonce_counter
        (.ok plaintext, { s with replay_window := w', rekey_state := rk' })
    | none =>
        let s1 := if retention_expired then { s with old_keys := none } else s
        match s1.get_old_recv_key with
        | some old_key =>
            let old_epoch := s.rekey_state.epoch - 1
            let old_nonce := construct_nonce old_epoch s.recv_direction nonce_counter
            match decryptFn old_key old_nonce aad ciphertext with
            | some plaintext => (.ok plaintext, s1)
            | none => (.error .decryptionFailed, s1)
        | none => (.error .decryptionFailed, s1)

/-- `CryptoSession::rekey`. `derive` abstracts
`derive_rekey_keys(ephemeral_dh, rekey_auth_key, epoch)` as a function of
the new epoch (the other two inputs are fixed for the session); the Rust
derivation's only failure, `KeyDerivationFailed`, cannot occur for the
fixed 64-byte PRK / 64-byte output, so `derive` is total. -/
def rekey (derive : Nat → κ × κ) (s : CryptoSession κ) :
    Except CryptoError Unit × CryptoSession κ :=
  let s1 := { s with old_keys := some (s.send_key, s.recv_key) }
  match s1.rekey_state.advance_epoch with
  | .error e => (.error e, s1)
  | .ok rk' =>
      let (new_ik, new_rk) := derive rk'.epoch
      let (sk, rk) :=
        match s.role with
        | .initiator => (new_ik, new_rk)
        | .responder => (new_rk, new_ik)
      let s2 := { s1 with
        rekey_state := rk'
        send_key := sk
        recv_key := rk
        replay_window := s1.replay_window.reset }
      (.ok (), s2)

end CryptoSession

/-! ## Sync messages — `src/sync/message.rs`

Wire bytes are `List Nat` with each entry a byte value; `u64`/`u32` fields
are serialized little-endian. -/

/-- `u64::to_le_bytes` / `u32::to_le_bytes` generalized: the `k`-byte
little-endian encoding of `n` (truncating above `256 ^ k`, as the Rust cast
does). -/
def toLeBytes : Nat → Nat → List Nat
  | _, 0 => []
  | n, k + 1 => n % 256 :: toLeBytes (n / 256) k

/-- `u64::from_le_bytes` / `u32::from_le_bytes` generalized to a byte list. -/
def fromLeBytes (bs : List Nat) : Nat :=
  bs.foldr (fun b acc => b + 256 * acc) 0

/-- `src/sync/message.rs`: `MessageError`. -/
inductive MessageError where
  | tooShort (expected actual : Nat)
  | bufferTooSmall (required available : Nat)
  | invalidFormat (msg : String)
  deriving DecidableEq, Repr

/-- `src/sync/message.rs`: `SYNC_MESSAGE_HEADER_SIZE = 28`. -/
def SYNC_MESSAGE_HEADER_SIZE : Nat := 28

/-- `src/sync/message.rs`: `struct SyncMessage`. -/
structure SyncMessage where
  sender_state_num : Nat
  acked_state_num : Nat
  base_state_num : Nat
  diff : List Nat
  deriving DecidableEq, Repr

namespace SyncMessage

/-- `SyncMessage::ack_only`. -/
def ack_only (current_version acked_version : Nat) : SyncMessage :=
  { sender_state_num := current_version
    acked_state_num := acked_version
    base_state_num := 0
    diff := [] }

/-- `SyncMessage::is_ack_only`. -/
def is_ack_only (m : SyncMessage) : Bool := m.diff.isEmpty

/-- `SyncMessage::encode`: 28-byte header then the diff; the diff length is
written as `diff.len() as u32`, hence the explicit `% 2 ^ 32`. -/
def encode (m : SyncMessage) : List Nat :=
  toLeBytes m.sender_state_num 8 ++ toLeBytes m.acked_state_num 8 ++
    toLeBytes m.base_state_num 8 ++ toLeBytes (m.diff.length % 2 ^ 32) 4 ++ m.diff

/-- `SyncMessage::decode`. -/
def decode (data : List Nat) : Except MessageError SyncMessage :=
  if data.length < SYNC_MESSAGE_HEADER_SIZE then
    .error (.tooShort SYNC_MESSAGE_HEADER_SIZE data.length)
  else
    let sender := fromLeBytes (data.take 8)
    let acked := fromLeBytes ((data.drop 8).take 8)
    let base := fromLeBytes ((data.drop 16).take 8)
    let diff_len := fromLeBytes ((data.drop 24).take 4)
    if data.length < SYNC_MESSAGE_HEADER_SIZE + diff_len then
      .error (.tooShort (SYNC_MESSAGE_HEADER_SIZE + diff_len) data.length)
    else
      .ok { sender_state_num := sender
            acked_state_num := acked
            base_state_num := base
            diff := (data.drop SYNC_MESSAGE_HEADER_SIZE).take diff_len }

end SyncMessage

/-! ## Sync receiver — `src/sync/receiver.rs` -/

/-- `src/sync/receiver.rs`: `ReceiveResult`. -/
inductive ReceiveResult where
  | newState (sender_version acked_version base_version : Nat)
  | ackOnly (sender_version acked_version : Nat)
  | duplicate (version : Nat)
  | stale (received current : Nat)
  deriving DecidableEq, Repr

/-- `src/sync/receiver.rs`: `struct SyncReceiver`. -/
structure SyncReceiver where
  highest_received : Nat
  last_acked_to_peer : Nat
  deriving DecidableEq, Repr

namespace SyncReceiver

/-- `SyncReceiver::new`. -/
def new : SyncReceiver := ⟨0, 0⟩

/-- `SyncReceiver::receive` (returns the classification and the updated
receiver). -/
def receive (r : SyncReceiver) (msg : SyncMessage) : ReceiveResult × SyncReceiver :=
  let sender_version := msg.sender_state_num
  if sender_version < r.highest_received then
    (.stale sender_version r.highest_received, r)
  else if sender_version = r.highest_received ∧ sender_version > 0 then
    (.duplicate sender_version, r)
  else
    let r' := { r with highest_received := sender_version }
    if msg.is_ack_only then
      (.ackOnly sender_version msg.acked_state_num, r')
    else
      (.newState sender_version msg.acked_state_num msg.base_state_num, r')

end SyncReceiver

/-! ## Sync tracker and engine — `src/sync/tracker.rs`, `src/sync/engine.rs` -/

/-- `src/sync/tracker.rs`: `struct SyncTracker`. -/
structure SyncTracker where
  current_num : Nat
  last_sent_num : Nat
  last_acked : Nat
  peer_state_num : Nat
  deriving DecidableEq, Repr

namespace SyncTracker

/-- `SyncTracker::new` (`Default`). -/
def new : SyncTracker := ⟨0, 0, 0, 0⟩

/-- `SyncTracker::process_incoming`: updates `last_acked` and
`peer_state_num`, and reports whether the message carried new state. -/
def process_incoming (t : SyncTracker) (msg : SyncMessage) : Bool × SyncTracker :=
  let t1 :=
    if msg.acked_state_num > t.last_acked then
      { t with last_acked := msg.acked_state_num }
    else t
  let is_new_state := msg.sender_state_num > t1.peer_state_num
  let t2 :=
    if is_new_state then { t1 with peer_state_num := msg.sender_state_num } else t1
  (is_new_state && !msg.is_ack_only, t2)

end SyncTracker

/-- `src/sync/engine.rs`: `SyncError` (the `Message` payload is carried as a
`MessageError`, the diff errors as their `String` payloads). -/
inductive SyncError where
  | message (e : MessageError)
  | diffDecode (s : String)
  | diffApply (s : String)
  | versionMismatch (expected actual : Nat)
  | notInitialized
  deriving DecidableEq, Repr

/-- `src/sync/engine.rs`: `ProcessResult`. -/
inductive ProcessResult where
  | updated
  | ackOnly
  | duplicate
  deriving DecidableEq, Repr

/-- `src/sync/engine.rs`: `struct SyncEngine<S, D>` — the tracker, the
optional current state and acked snapshot, and the five State-Contract
callbacks stored at construction. -/
structure SyncEngine (σ δ : Type) where
  tracker : SyncTracker
  state : Option σ
  acked_snapshot : Option σ
  encode_diff : δ → List Nat
  decode_diff : List Nat → Except String δ
  compute_diff : σ → σ → δ
  apply_diff : σ → δ → Except String σ
  is_diff_empty : δ → Bool

namespace SyncEngine

variable {σ δ : Type}

/-- `SyncEngine::update_acked_snapshot`. -/
def update_acked_snapshot (e : SyncEngine σ δ) : SyncEngine σ δ :=
  match e.state with
  | none => e
  | some _ => if e.tracker.last_acked > 0 then { e with acked_snapshot := e.state } else e

/-- `SyncEngine::process_message`. Returns the result and the updated
engine; on a decode/apply error the tracker update already performed by the
Rust code is kept (the engine is returned with the new tracker), while
`apply_diff` itself is modelled as pure (no partial state mutation on its
error). -/
def process_message (e : SyncEngine σ δ) (msg : SyncMessage) :
    Except SyncError ProcessResult × SyncEngine σ δ :=
  match e.state with
  | none => (.error .notInitialized, e)
  | some st =>
    let (is_new, tr') := e.tracker.process_incoming msg
    let e1 := { e with tracker := tr' }
    if msg.is_ack_only then
      let e2 := if msg.acked_state_num > 0 then e1.update_acked_snapshot else e1
      (.ok .ackOnly, e2)
    else if !is_new then
      (.ok .duplicate, e1)
    else
      match
        (if msg.diff.isEmpty then .ok e1 else
          match e.decode_diff msg.diff with
          | .error s => .error (SyncError.diffDecode s)
          | .ok d =>
            match e.apply_diff st d with
            | .error s => .error (SyncError.diffApply s)
            | .ok st' => .ok { e1 with state := some st' } :
              Except SyncError (SyncEngine σ δ))
      with
      | .error err => (.error err, e1)
      | .ok e2 =>
        let e3 := if msg.acked_state_num > 0 then e2.update_acked_snapshot else e2
        (.ok .updated, e3)

/-- Process a list of messages in order (the per-datagram inbound loop);
errors leave the engine as `process_message` returned it. -/
def run (e : SyncEngine σ δ) : List SyncMessage → SyncEngine σ δ
  | [] => e
  | m :: ms => run (e.process_message m).snd ms

/-- Whether `process_message` applies the message's diff to local state:
exactly the `ProcessResult::Updated` outcome of a message carrying a
non-empty diff (for an empty diff no `apply_diff` call happens). -/
def applies (e : SyncEngine σ δ) (msg : SyncMessage) : Bool :=
  !msg.diff.isEmpty &&
    match (e.process_message msg).fst with
    | .ok .updated => true
    | _ => false

/-- The number of messages in a run whose diff gets applied while carrying
`sender_state_num = v`. -/
def appliedCount (e : SyncEngine σ δ) (v : Nat) : List SyncMessage → Nat
  | [] => 0
  | m :: ms =>
      (if e.applies m ∧ m.sender_state_num = v then 1 else 0) +
        appliedCount (e.process_message m).snd v ms

end SyncEngine

/-! ## Ack tracker — `src/sync/ack.rs`

Durations and instants are modelled as exact rationals, in milliseconds
(the Rust code stores `Duration`s and smooths them through `f64` seconds;
the exact-rational model abstracts the `f64` and nanosecond roundings).
`Instant::now()` / `elapsed()` are modelled by an explicit `now` argument:
`sent_at.elapsed() = now - sent_at`. -/

/-- `src/sync/ack.rs`: `struct PendingAck`. -/
structure PendingAck where
  version : Nat
  sent_at : ℚ
  retransmit_count : Nat
  rto : ℚ
  deriving DecidableEq, Repr

/-- `src/sync/ack.rs`: `struct AckTracker`. -/
structure AckTracker where
  pending : List PendingAck
  highest_acked : Nat
  initial_rto : ℚ
  min_rto : ℚ
  max_rto : ℚ
  backoff_multiplier : Nat
  max_retransmits : Nat
  srtt : Option ℚ
  rttvar : Option ℚ
  deriving DecidableEq, Repr

namespace AckTracker

/-- `AckTracker::new` (`DEFAULT_INITIAL_RTO = 1000 ms`, `DEFAULT_MIN_RTO =
100 ms`, `DEFAULT_MAX_RTO = 60 s`, backoff 2, max retransmits 10). -/
def new : AckTracker :=
  { pending := []
    highest_acked := 0
    initial_rto := 1000
    min_rto := 100
    max_rto := 60000
    backoff_multiplier := 2
    max_retransmits := 10
    srtt := none
    rttvar := none }

/-- `AckTracker::current_rto`: once SRTT and RTTVAR exist,
`SRTT + max(G, K·RTTVAR)` with `K = 4` and `G = 1 ms` (the code's comment:
"We use 1ms as clock granularity"), clamped to `[min_rto, max_rto]`;
before the first sample, `initial_rto`. -/
def current_rto (t : AckTracker) : ℚ :=
  match t.srtt, t.rttvar with
  | some srtt, some rttvar =>
      let g : ℚ := 1
      let rto := srtt + max g (rttvar * 4)
      min (max rto t.min_rto) t.max_rto
  | _, _ => t.initial_rto

/-- `AckTracker::register_sent` (at instant `now`). -/
def register_sent (now : ℚ) (t : AckTracker) (version : Nat) : AckTracker :=
  if t.pending.any (fun p => p.version = version) then t
  else
    let p : PendingAck :=
      { version := version, sent_at := now, retransmit_count := 0, rto := t.current_rto }
    { t with pending := t.pending ++ [p] }

/-- The `Vec::retain` closure of `AckTracker::process_ack`: walk the pending
list in order, drop every entry with `version ≤ acked`, and take as the RTT
sample the first dropped entry with `retransmit_count = 0`
(`rtt_sample.is_none()` guard = first wins). Returns (sample, kept list). -/
def retainAck (now : ℚ) (acked : Nat) : List PendingAck → Option ℚ × List PendingAck
  | [] => (none, [])
  | p :: ps =>
      let (s, rest) := retainAck now acked ps
      if p.version ≤ acked then
        (if p.retransmit_count = 0 then some (now - p.sent_at) else s, rest)
      else
        (s, p :: rest)

/-- `AckTracker::update_rtt` (RFC 6298 smoothing; exact arithmetic in place
of the `f64` computation). -/
def update_rtt (t : AckTracker) (rtt : ℚ) : AckTracker :=
  match t.srtt, t.rttvar with
  | none, none => { t with srtt := some rtt, rttvar := some (rtt / 2) }
  | some srtt, some rttvar =>
      let new_rttvar := 3 / 4 * rttvar + 1 / 4 * |srtt - rtt|
      let new_srtt := 7 / 8 * srtt + 1 / 8 * rtt
      { t with srtt := some new_srtt, rttvar := some new_rttvar }
  | _, _ => t

/-- `AckTracker::process_ack` (at instant `now`): acks not above
`highest_acked` return immediately; otherwise every pending entry with
version ≤ acked is removed and the first never-retransmitted one yields the
RTT sample fed to `update_rtt`. -/
def process_ack (now : ℚ) (t : AckTracker) (acked_version : Nat) :
    Option ℚ × AckTracker :=
  if acked_version ≤ t.highest_acked then (none, t)
  else
    let t1 := { t with highest_acked := acked_version }
    let (rtt_sample, kept) := retainAck now acked_version t1.pending
    let t2 := { t1 with pending := kept }
    let t3 :=
      match rtt_sample with
      | some rtt => t2.update_rtt rtt
      | none => t2
    (rtt_sample, t3)

end AckTracker

/-! ## Connection RTT estimator — `src/transport/timing.rs`

`RttEstimator` keeps SRTT and RTTVAR as `f64` milliseconds (modelled as
exact rationals) and the RTO as a whole-millisecond `Duration` (the code
ends with `Duration::from_millis(rto_ms as u64)`, i.e. the floor of the
clamped value). -/

/-- `src/transport/timing.rs`: `struct RttEstimator`. Constants:
`SRTT_ALPHA = 1/8`, `RTTVAR_BETA = 1/4`, `RTO_K = 4`,
`MIN_RTO_GRANULARITY_MS = 100`, `MIN_RTO = 100 ms`, `MAX_RTO = 60000 ms`,
`INITIAL_RTO = 1000 ms`. -/
structure RttEstimator where
  srtt : ℚ
  rttvar : ℚ
  rto : Nat
  initialized : Bool
  deriving DecidableEq, Repr

namespace RttEstimator

/-- `RttEstimator::new`. -/
def new : RttEstimator :=
  { srtt := 0, rttvar := 0, rto := 1000, initialized := false }

/-- The RTO formula of `RttEstimator::update`:
`clamp(srtt + max(G, K·rttvar), MIN_RTO, MAX_RTO)` with `G = 100 ms`,
`K = 4`, truncated to whole milliseconds by the final `as u64` cast. -/
def rtoFormula (srtt rttvar : ℚ) : Nat :=
  (⌊min (max (srtt + max 100 (4 * rttvar)) 100) 60000⌋).toNat

/-- `RttEstimator::update` with a new sample (in milliseconds). -/
def update (e : RttEstimator) (sample_ms : ℚ) : RttEstimator :=
  let e1 :=
    if !e.initialized then
      { e with srtt := sample_ms, rttvar := sample_ms / 2, initialized := true }
    else
      let rttvar' := (1 - 1 / 4) * e.rttvar + 1 / 4 * |e.srtt - sample_ms|
      let srtt' := (1 - 1 / 8) * e.srtt + 1 / 8 * sample_ms
      { e with srtt := srtt', rttvar := rttvar' }
  { e1 with rto := rtoFormula e1.srtt e1.rttvar }

end RttEstimator

/-! ## Migration state — `crates/nomad-protocol/src/transport/migration.rs`

Addresses are abstracted as `Nat`; the per-address map is a function
`Nat → Option AddressState`. The `first_seen` timestamp (only used by
`cleanup`) and the per-subnet `Instant` map are time-dependent machinery
that the claims do not touch: the rate-limit outcome inside
`validate_address` (same-subnet / interval comparison) is abstracted as a
boolean `rate_limited` input, covering every possible clock/subnet
configuration. -/

/-- `migration.rs`: `struct AddressState` (byte counters and validation
flag; `usize` counters as `Nat`, kept below `usize::MAX` by the saturating
operations). -/
structure AddressState where
  bytes_received : Nat
  bytes_sent : Nat
  validated : Bool
  deriving DecidableEq, Repr

/-- `AddressState::new`. -/
def AddressState.init : AddressState :=
  { bytes_received := 0, bytes_sent := 0, validated := false }

/-- `migration.rs`: `AMPLIFICATION_FACTOR = 3`. -/
def AMPLIFICATION_FACTOR : Nat := 3

/-- `migration.rs`: `struct MigrationState` (current address plus the
address map). -/
structure MigrationState where
  current_address : Nat
  addresses : Nat → Option AddressState

namespace MigrationState

/-- `MigrationState::new`: the initial address is pre-validated. -/
def new (initial_address : Nat) : MigrationState :=
  { current_address := initial_address
    addresses := fun a =>
      if a = initial_address then some { AddressState.init with validated := true }
      else none }

/-- `MigrationState::on_receive` (`entry(from).or_insert` then
`saturating_add`). -/
def on_receive (s : MigrationState) (from_addr bytes : Nat) : MigrationState :=
  let st := (s.addresses from_addr).getD AddressState.init
  let st' := { st with bytes_received := satAdd st.bytes_received bytes }
  { s with addresses := fun a => if a = from_addr then some st' else s.addresses a }

/-- `MigrationState::on_send` (only updates an already-known address). -/
def on_send (s : MigrationState) (to_addr bytes : Nat) : MigrationState :=
  match s.addresses to_addr with
  | none => s
  | some st =>
      let st' := { st with bytes_sent := satAdd st.bytes_sent bytes }
      { s with addresses := fun a => if a = to_addr then some st' else s.addresses a }

/-- `MigrationState::can_send`: validated addresses are unrestricted;
unvalidated ones are held to the ×3 anti-amplification budget; unknown
addresses get nothing. -/
def can_send (s : MigrationState) (to_addr bytes : Nat) : Bool :=
  match s.addresses to_addr with
  | none => false
  | some st =>
      if st.validated then true
      else satAdd st.bytes_sent bytes ≤ satMul st.bytes_received AMPLIFICATION_FACTOR

/-- `MigrationState::validate_address`; `rate_limited` is the outcome of the
different-subnet interval check (always `false` when the address equals the
current one or shares its subnet). A rate-limited attempt changes nothing;
otherwise the address is marked validated and becomes current. -/
def validate_address (s : MigrationState) (addr : Nat) (rate_limited : Bool) :
    Bool × MigrationState :=
  if rate_limited then (false, s)
  else
    let st := (s.addresses addr).getD AddressState.init
    let st' := { st with validated := true }
    (true,
      { current_address := addr
        addresses := fun a => if a = addr then some st' else s.addresses a })

/-- The events a `MigrationState` is driven by. -/
inductive Ev where
  | recv (addr bytes : Nat)
  | send (addr bytes : Nat)
  | validate (addr : Nat) (rate_limited : Bool)
  deriving DecidableEq, Repr

/-- One event step. -/
def step (s : MigrationState) : Ev → MigrationState
  | .recv a n => s.on_receive a n
  | .send a n => s.on_send a n
  | .validate a rl => (s.validate_address a rl).snd

/-- Run a list of events. -/
def run (s : MigrationState) : List Ev → MigrationState
  | [] => s
  | e :: es => run (s.step e) es

/-- The discipline the transport imposes on sends: every `send a n` in the
trace happens only when `can_send a n` is true at that moment. -/
def Guarded (s : MigrationState) : List Ev → Prop
  | [] => True
  | e :: es =>
      (match e with
       | .send a n => s.can_send a n = true
       | _ => True) ∧ Guarded (s.step e) es

instance instDecGuarded : ∀ (s : MigrationState) (es : List Ev), Decidable (Guarded s es)
  | _, [] => .isTrue trivial
  | s, e :: es =>
      match e with
      | .recv a n =>
          letI : Decidable (Guarded (s.step (.recv a n)) es) :=
            instDecGuarded (s.step (.recv a n)) es
          inferInstanceAs (Decidable (True ∧ Guarded (s.step (.recv a n)) es))
      | .validate a rl =>
          letI : Decidable (Guarded (s.step (.validate a rl)) es) :=
            instDecGuarded (s.step (.validate a rl)) es
          inferInstanceAs (Decidable (True ∧ Guarded (s.step (.validate a rl)) es))
      | .send a n =>
          letI : Decidable (Guarded (s.step (.send a n)) es) :=
            instDecGuarded (s.step (.send a n)) es
          inferInstanceAs
            (Decidable (s.can_send a n = true ∧ Guarded (s.step (.send a n)) es))

end MigrationState

/-- Well-formedness of a `SyncMessage` as imposed by its Rust types:
the three version fields are `u64` and the diff length fits in the `u32`
length prefix. -/
def SyncMessage.WellFormed (m : SyncMessage) : Prop :=
  m.sender_state_num < 2 ^ 64 ∧ m.acked_state_num < 2 ^ 64 ∧
    m.base_state_num < 2 ^ 64 ∧ m.diff.length < 2 ^ 32

/-- The anti-amplification invariant of `MigrationState` (spec invariant I7
plus the `usize` range facts the saturating arithmetic maintains): every
tracked address has in-range counters, and an address that has not been
validated has been sent at most `3 ×` what was received from it. -/
def MigrationState.AmpOk (s : MigrationState) : Prop :=
  ∀ a st, s.addresses a = some st →
    st.bytes_received ≤ USIZE_MAX ∧ st.bytes_sent ≤ USIZE_MAX ∧
      (st.validated = false →
        st.bytes_sent ≤ AMPLIFICATION_FACTOR * st.bytes_received)

/-- A concrete `SyncEngine` over counter states and delta diffs (mirrors the
test fixture of `src/sync/engine.rs`); used to instantiate the generic
engine theorems at a computable input. -/
def testEngine : SyncEngine Int Int :=
  { tracker := SyncTracker.new
    state := some 0
    acked_snapshot := some 0
    encode_diff := fun _ => []
    decode_diff := fun bs => .ok (bs.length : Int)
    compute_diff := fun a b => b - a
    apply_diff := fun s d => .ok (s + d)
    is_diff_empty := fun d => d = 0 }

/-- A concrete ack tracker with two pending entries — version 1 already
retransmitted once, version 2 never retransmitted — used to instantiate the
ack-tracker theorems. -/
def ackEx : AckTracker :=
  { AckTracker.new with
      pending :=
        [ { version := 1, sent_at := 0, retransmit_count := 1, rto := 1000 }
        , { version := 2, sent_at := 5, retransmit_count := 0, rto := 1000 } ] }

/-- A concrete crypto session over `Nat` key material, used to instantiate
the generic session theorems at a computable input. -/
def csEx : CryptoSession Nat :=
  { session_id := 1
    role := .initiator
    send_key := 10
    recv_key := 20
    rekey_state := RekeyState.new
    replay_window := ReplayWindow.new
    old_keys := none }

end Nomad

namespace Nomad

/-! # Theorems

One main theorem per claim (`claim_Cn`), with witnesses
(`claim_Cn_witness`) and, for refuted claims, closed counterexamples
(`claim_Cn_counterexample`). Helper lemmas precede the claim theorems that
use them. -/

/-- **C2.** For every crypto session, `encrypt_frame` fails with
`CounterExhaustion` iff the pre-increment send counter equals
`REJECT_AFTER_MESSAGES` (`2^64 - 1`); in that case the session is
unchanged, and on success it returns the pre-increment counter `c` and
leaves the counter at `c + 1` with `c < REJECT_AFTER_MESSAGES`, so
successive successful encrypts in one epoch use strictly increasing
counters that never wrap. -/
theorem claim_C2 {κ : Type}
    (encryptFn : κ → Nat × Direction × Nat → Nat × Nat × Nat × Nat → List Nat →
      Option (List Nat))
    (s : CryptoSession κ) (frame_type flags : Nat) (plaintext : List Nat)
    (hrange : s.rekey_state.send_count ≤ REJECT_AFTER_MESSAGES) :
    ((s.encrypt_frame encryptFn frame_type flags plaintext).fst =
        .error .counterExhaustion ↔
      s.rekey_state.send_count = REJECT_AFTER_MESSAGES) ∧
    (s.rekey_state.send_count = REJECT_AFTER_MESSAGES →
      (s.encrypt_frame encryptFn frame_type flags plaintext).snd = s) ∧
    (∀ c ct,
      (s.encrypt_frame encryptFn frame_type flags plaintext).fst = .ok (c, ct) →
      c = s.rekey_state.send_count ∧
        (s.encrypt_frame encryptFn frame_type flags plaintext).snd.rekey_state.send_count
          = c + 1 ∧
        c < REJECT_AFTER_MESSAGES ∧
        (s.encrypt_frame encryptFn frame_type flags plaintext).snd.rekey_state.epoch
          = s.rekey_state.epoch) := by
  by_cases h : s.rekey_state.send_count = REJECT_AFTER_MESSAGES
  · have hexp : s.encrypt_frame encryptFn frame_type flags plaintext =
        (.error .counterExhaustion, s) := by
      simp [CryptoSession.encrypt_frame, RekeyState.increment_send, h]
    rw [hexp]
    exact ⟨by simp [h], fun _ => rfl, fun c ct hok => by simp at hok⟩
  · rcases henc : encryptFn s.send_key
        (construct_nonce
          { s.rekey_state with send_count := s.rekey_state.send_count + 1 }.epoch
          s.send_direction s.rekey_state.send_count)
        (construct_aad frame_type flags s.session_id s.rekey_state.send_count)
        plaintext with _ | ct'
    · have hexp : s.encrypt_frame encryptFn frame_type flags plaintext =
          (.error .encryptionFailed,
            { s with rekey_state :=
                { s.rekey_state with send_count := s.rekey_state.send_count + 1 } }) := by
        simp [CryptoSession.encrypt_frame, RekeyState.increment_send, h, henc]
      rw [hexp]
      exact ⟨by simp [h], fun hc => absurd hc h, fun c ct hok => by simp at hok⟩
    · have hexp : s.encrypt_frame encryptFn frame_type flags plaintext =
          (.ok (s.rekey_state.send_count, ct'),
            { s with rekey_state :=
                { s.rekey_state with send_count := s.rekey_state.send_count + 1 } }) := by
        simp [CryptoSession.encrypt_frame, RekeyState.increment_send, h, henc]
      rw [hexp]
      refine ⟨by simp [h], fun hc => absurd hc h, ?_⟩
      intro c ct hok
      simp only [Except.ok.injEq, Prod.mk.injEq] at hok
      rcases hok with ⟨hc, _⟩
      subst hc
      exact ⟨rfl, rfl, by omega, rfl⟩

end Nomad

namespace Nomad

/-- Witness for C2: on the concrete session `csEx` (counter 0) the encrypt
succeeds with counter 0 and leaves the counter at 1. -/
theorem claim_C2_witness :
    (csEx.encrypt_frame (fun _ _ _ _ => some [7]) 3 0 []).fst = .ok (0, [7]) ∧
    (csEx.encrypt_frame (fun _ _ _ _ => some [7]) 3 0 []).snd.rekey_state.send_count
      = 0 + 1 ∧
    (0 : Nat) < REJECT_AFTER_MESSAGES := by
  have h := claim_C2 (fun _ _ _ _ => some [7]) csEx 3 0 [] (Nat.zero_le _)
  have hok : (csEx.encrypt_frame (fun _ _ _ _ => some [7]) 3 0 []).fst = .ok (0, [7]) := by
    rfl
  have h3 := h.2.2 0 [7] hok
  exact ⟨hok, h3.2.1, h3.2.2.1⟩

/-- **C3.** A successful rekey (possible whenever the epoch is below
`2^32 - 1`) moves the current send/recv keys into the old-keys slot,
advances the epoch by one, resets both per-epoch counters to 0, and resets
the replay window to the empty (uninitialized, highest = 0) window. -/
theorem claim_C3 {κ : Type} (derive : Nat → κ × κ) (s : CryptoSession κ)
    (h : s.rekey_state.epoch < 2 ^ 32 - 1) :
    (s.rekey derive).fst = .ok () ∧
    (s.rekey derive).snd.old_keys = some (s.send_key, s.recv_key) ∧
    (s.rekey derive).snd.rekey_state.epoch = s.rekey_state.epoch + 1 ∧
    (s.rekey derive).snd.rekey_state.send_count = 0 ∧
    (s.rekey derive).snd.rekey_state.recv_count = 0 ∧
    (s.rekey derive).snd.replay_window = ReplayWindow.new := by
  have hne : s.rekey_state.epoch ≠ MAX_EPOCH := by
    unfold MAX_EPOCH
    omega
  unfold CryptoSession.rekey RekeyState.advance_epoch
  rcases hd : derive (s.rekey_state.epoch + 1) with ⟨ik, rk⟩
  rcases hrole : s.role <;>
    simp [hne, hd, hrole, ReplayWindow.reset]

/-- Witness for C3: rekeying the concrete session `csEx` (epoch 0). -/
theorem claim_C3_witness :
    (csEx.rekey (fun e => (e, e + 1))).fst = .ok () ∧
    (csEx.rekey (fun e => (e, e + 1))).snd.old_keys = some (csEx.send_key, csEx.recv_key) ∧
    (csEx.rekey (fun e => (e, e + 1))).snd.rekey_state.epoch = csEx.rekey_state.epoch + 1 ∧
    (csEx.rekey (fun e => (e, e + 1))).snd.rekey_state.send_count = 0 ∧
    (csEx.rekey (fun e => (e, e + 1))).snd.rekey_state.recv_count = 0 ∧
    (csEx.rekey (fun e => (e, e + 1))).snd.replay_window = ReplayWindow.new :=
  claim_C3 (fun e => (e, e + 1)) csEx (by norm_num [csEx, RekeyState.new])

/-- **C10.** Processing an acknowledgment not above `highest_acked` is a
complete no-op: it returns no RTT sample and leaves the whole tracker —
pending set, `highest_acked`, SRTT and RTTVAR — unchanged. -/
theorem claim_C10 (now : ℚ) (t : AckTracker) (v : Nat)
    (h : v ≤ t.highest_acked) :
    t.process_ack now v = (none, t) := by
  unfold AckTracker.process_ack
  simp [h]

/-- Witness for C10: an ack of 0 on a fresh tracker changes nothing. -/
theorem claim_C10_witness :
    AckTracker.process_ack 0 AckTracker.new 0 = (none, AckTracker.new) :=
  claim_C10 0 AckTracker.new 0 (Nat.le_refl 0)

end Nomad

namespace Nomad

/-- **C1** (refutation: the code violates the claim). The carry loop of
`ReplayWindow::shift_window` iterates from the highest word down, so the
high bits of a word that should carry into the next-higher word are instead
delivered to the next-lower word (or dropped at the end of the loop). The
trace below exhibits the resulting replay acceptance: counters 0, 60 and
120 are accepted in order; shifting by 60 twice loses the seen-bit of
counter 0 across the word-0/word-1 boundary, and the fourth call — counter
0 again, at offset 120, well inside the 2048-bit window — is accepted a
second time instead of being rejected with `ReplayDetected`. -/
theorem claim_C1 :
    (ReplayWindow.runNonces ReplayWindow.new [0, 60, 120, 0]).fst =
      [true, true, true, true] := by
  decide

end Nomad

namespace Nomad

/-- `update_rtt` never touches the pending set. -/
theorem AckTracker.update_rtt_pending (t : AckTracker) (rtt : ℚ) :
    (t.update_rtt rtt).pending = t.pending := by
  unfold AckTracker.update_rtt
  rcases hs : t.srtt with _ | s <;> rcases hv : t.rttvar with _ | v <;> simp

/-- The kept entries of the `process_ack` retain pass are exactly the
pending entries with version above the ack. -/
theorem AckTracker.retainAck_snd (now : ℚ) (acked : Nat) (l : List PendingAck) :
    (AckTracker.retainAck now acked l).snd =
      l.filter (fun p => decide (acked < p.version)) := by
  induction l with
  | nil => rfl
  | cons p ps ih =>
      unfold AckTracker.retainAck
      by_cases h : p.version ≤ acked
      · simp [h, ih, Nat.not_lt.mpr h]
      · simp [h, ih, Nat.not_le.mp h]

/-- Any RTT sample produced by the retain pass comes from a dropped entry
that was never retransmitted, and measures `now - sent_at` of that entry. -/
theorem AckTracker.retainAck_fst_some (now : ℚ) (acked : Nat)
    (l : List PendingAck) (q : ℚ)
    (h : (AckTracker.retainAck now acked l).fst = some q) :
    ∃ p ∈ l, p.version ≤ acked ∧ p.retransmit_count = 0 ∧ q = now - p.sent_at := by
  induction l with
  | nil => simp [AckTracker.retainAck] at h
  | cons p ps ih =>
      unfold AckTracker.retainAck at h
      by_cases hv : p.version ≤ acked
      · simp only [hv, if_true] at h
        by_cases hr : p.retransmit_count = 0
        · simp only [hr, if_true, Option.some.injEq] at h
          exact ⟨p, List.mem_cons_self p ps, hv, hr, h.symm⟩
        · simp only [hr, if_false] at h
          obtain ⟨p', hp', h1, h2, h3⟩ := ih h
          exact ⟨p', List.mem_cons_of_mem p hp', h1, h2, h3⟩
      · simp only [hv, if_false] at h
        obtain ⟨p', hp', h1, h2, h3⟩ := ih h
        exact ⟨p', List.mem_cons_of_mem p hp', h1, h2, h3⟩

/-- If every dropped entry had been retransmitted, no RTT sample arises. -/
theorem AckTracker.retainAck_fst_none (now : ℚ) (acked : Nat)
    (l : List PendingAck)
    (h : ∀ p ∈ l, p.version ≤ acked → p.retransmit_count ≠ 0) :
    (AckTracker.retainAck now acked l).fst = none := by
  induction l with
  | nil => rfl
  | cons p ps ih =>
      unfold AckTracker.retainAck
      have hps := ih (fun p' hp' => h p' (List.mem_cons_of_mem p hp'))
      by_cases hv : p.version ≤ acked
      · have hr := h p (List.mem_cons_self p ps) hv
        simp [hv, hr, hps]
      · simp [hv, hps]

/-- **C7 counterexample.** The claim fails as stated: after version 1 has
been acked once (raising `highest_acked` to 2), re-registering version 1
and then processing an ack with value 1 does NOT clear the pending entry
with version ≤ 1 — `process_ack` returns at the `acked ≤ highest_acked`
guard without touching the pending set. -/
theorem claim_C7_counterexample :
    ((((AckTracker.new.register_sent 0 1).process_ack 5 2).snd.register_sent 6 1
        ).process_ack 7 1).snd.pending.any (fun p => decide (p.version ≤ 1)) =
      true := by
  decide

/-- **C7 (amended).** For an acknowledgment that advances `highest_acked`
(`highest_acked < v`), `process_ack` clears from the pending set exactly
the entries with version ≤ v, any RTT sample it returns comes from a
cleared entry that was never retransmitted (measuring `now - sent_at`),
and if every cleared entry had been retransmitted no sample is produced.
An acknowledgment with `v ≤ highest_acked` leaves the pending set
unchanged (see C10). -/
theorem claim_C7 (now : ℚ) (t : AckTracker) (v : Nat)
    (h : t.highest_acked < v) :
    (t.process_ack now v).snd.pending =
      t.pending.filter (fun p => decide (v < p.version)) ∧
    (∀ q, (t.process_ack now v).fst = some q →
      ∃ p ∈ t.pending, p.version ≤ v ∧ p.retransmit_count = 0 ∧
        q = now - p.sent_at) ∧
    ((∀ p ∈ t.pending, p.version ≤ v → p.retransmit_count ≠ 0) →
      (t.process_ack now v).fst = none) := by
  have hguard : ¬ v ≤ t.highest_acked := Nat.not_le.mpr h
  rcases hret : AckTracker.retainAck now v t.pending with ⟨sample, kept⟩
  have hsnd := AckTracker.retainAck_snd now v t.pending
  rw [hret] at hsnd
  have hfst : (t.process_ack now v).fst = sample := by
    rcases sample with _ | q <;>
      simp [AckTracker.process_ack, hguard, hret]
  have hpend : (t.process_ack now v).snd.pending = kept := by
    rcases sample with _ | q <;>
      simp [AckTracker.process_ack, hguard, hret, AckTracker.update_rtt_pending]
  refine ⟨hpend.trans hsnd, ?_, ?_⟩
  · intro q hq
    rw [hfst] at hq
    exact AckTracker.retainAck_fst_some now v t.pending q (by rw [hret]; simpa using hq)
  · intro hall
    rw [hfst]
    have hnone := AckTracker.retainAck_fst_none now v t.pending hall
    rw [hret] at hnone
    simpa using hnone

end Nomad

namespace Nomad

/-- Witness for C7 (amended): on the concrete tracker `ackEx`
(`highest_acked = 0`), an ack of 2 clears both pending entries. -/
theorem claim_C7_witness :
    (ackEx.process_ack 10 2).snd.pending =
      ackEx.pending.filter (fun p => decide (2 < p.version)) :=
  (claim_C7 10 ackEx 2 (by decide)).1

/-- **C8 counterexample.** A tracker whose smoothing state has reached
`SRTT = 200 ms`, `RTTVAR = 4 ms` (RTTVAR decays below 25 ms after a run of
near-constant RTT samples, where the two granularities diverge): the
claimed formula `clamp(SRTT + max(100 ms, 4·RTTVAR), 100 ms, 60 s)` gives
300 ms, but `AckTracker::current_rto` returns 216 ms because the code uses
a 1 ms clock granularity in place of the claimed 100 ms. -/
theorem claim_C8_counterexample :
    ({ AckTracker.new with srtt := some 200, rttvar := some 4 } : AckTracker).current_rto ≠
      min (max ((200 : ℚ) + max 100 (4 * (4 : ℚ))) 100) 60000 := by
  unfold AckTracker.current_rto
  norm_num [AckTracker.new, max_def, min_def]

/-- **C8 (amended).** The connection RTT estimator's RTO after each sample
equals `clamp(SRTT + max(G, K·RTTVAR), MIN_RTO, MAX_RTO)` with `K = 4`,
`G = 100 ms`, `MIN_RTO = 100 ms`, `MAX_RTO = 60 s` (truncated to whole
milliseconds by the `as u64` cast); the sync ack tracker's RTO, once SRTT
and RTTVAR are initialized, uses the same clamp shape but with clock
granularity `G = 1 ms` instead of 100 ms (with its configured bounds,
`100 ms` and `60 s` by default). -/
theorem claim_C8 :
    (∀ (e : RttEstimator) (sample : ℚ),
      (e.update sample).rto =
        (⌊min (max ((e.update sample).srtt + max 100 (4 * (e.update sample).rttvar))
            100) 60000⌋).toNat) ∧
    (∀ (t : AckTracker) (s v : ℚ), t.srtt = some s → t.rttvar = some v →
      t.current_rto = min (max (s + max 1 (v * 4)) t.min_rto) t.max_rto) ∧
    AckTracker.new.min_rto = 100 ∧ AckTracker.new.max_rto = 60000 := by
  refine ⟨?_, ?_, rfl, rfl⟩
  · intro e sample
    by_cases h : e.initialized <;>
      simp [RttEstimator.update, RttEstimator.rtoFormula, h]
  · intro t s v hs hv
    unfold AckTracker.current_rto
    rw [hs, hv]

/-- Witness for C8 (amended): the estimator after one 200 ms sample
(`SRTT = 200`, `RTTVAR = 100`, RTO `= 600 ms`), and a tracker with
`SRTT = 200 ms`, `RTTVAR = 4 ms` (RTO `= 216 ms` under the 1 ms
granularity). -/
theorem claim_C8_witness :
    (RttEstimator.new.update 200).rto =
      (⌊min (max ((RttEstimator.new.update 200).srtt +
          max 100 (4 * (RttEstimator.new.update 200).rttvar)) 100) 60000⌋).toNat ∧
    ({ AckTracker.new with srtt := some 200, rttvar := some 4 } : AckTracker).current_rto
      = min (max ((200 : ℚ) + max 1 (4 * 4))
          ({ AckTracker.new with srtt := some 200, rttvar := some 4 } : AckTracker).min_rto)
          ({ AckTracker.new with srtt := some 200, rttvar := some 4 } : AckTracker).max_rto := by
  constructor
  · exact claim_C8.1 RttEstimator.new 200
  · have h := claim_C8.2.1
      ({ AckTracker.new with srtt := some 200, rttvar := some 4 } : AckTracker)
      200 4 rfl rfl
    simpa using h

end Nomad

namespace Nomad

/-- **C9.** For every session and input frame: whenever `decrypt_frame`
returns an error (`ReplayDetected` or `DecryptionFailed`), the replay
window, the epoch and both per-epoch counters are unchanged — so a later
authentic frame with the same counter is still admissible; and a
decryption that succeeds only under the retained old key (the current key
having failed) also leaves the replay window and the counters of the
current epoch unchanged. -/
theorem claim_C9 {κ : Type}
    (decryptFn : κ → Nat × Direction × Nat → Nat × Nat × Nat × Nat → List Nat →
      Option (List Nat))
    (retention_expired : Bool) (s : CryptoSession κ)
    (frame_type flags nonce_counter : Nat) (ciphertext : List Nat) :
    (∀ err,
      (s.decrypt_frame decryptFn retention_expired frame_type flags nonce_counter
          ciphertext).fst = .error err →
      (s.decrypt_frame decryptFn retention_expired frame_type flags nonce_counter
          ciphertext).snd.replay_window = s.replay_window ∧
      (s.decrypt_frame decryptFn retention_expired frame_type flags nonce_counter
          ciphertext).snd.rekey_state = s.rekey_state) ∧
    (decryptFn s.recv_key
        (construct_nonce s.rekey_state.epoch s.recv_direction nonce_counter)
        (construct_aad frame_type flags s.session_id nonce_counter)
        ciphertext = none →
      ∀ pt,
        (s.decrypt_frame decryptFn retention_expired frame_type flags nonce_counter
            ciphertext).fst = .ok pt →
        (s.decrypt_frame decryptFn retention_expired frame_type flags nonce_counter
            ciphertext).snd.replay_window = s.replay_window ∧
        (s.decrypt_frame decryptFn retention_expired frame_type flags nonce_counter
            ciphertext).snd.rekey_state = s.rekey_state) := by
  by_cases hrep : s.replay_window.is_replay nonce_counter = true
  · constructor
    · intro err _
      constructor <;> simp [CryptoSession.decrypt_frame, hrep]
    · intro _ pt hok
      simp [CryptoSession.decrypt_frame, hrep] at hok
  · rcases hcur : decryptFn s.recv_key
        (construct_nonce s.rekey_state.epoch s.recv_direction nonce_counter)
        (construct_aad frame_type flags s.session_id nonce_counter)
        ciphertext with _ | pt0
    · -- current key fails: maybe old-key path
      have hs1 :
          (s.decrypt_frame decryptFn retention_expired frame_type flags nonce_counter
              ciphertext).snd.replay_window = s.replay_window ∧
          (s.decrypt_frame decryptFn retention_expired frame_type flags nonce_counter
              ciphertext).snd.rekey_state = s.rekey_state := by
        rcases hold : (if retention_expired then { s with old_keys := none } else
            s).get_old_recv_key with _ | k
        · constructor <;>
            · simp only [CryptoSession.decrypt_frame, hrep, Bool.false_eq_true,
                if_false, hcur, hold]
              rcases retention_expired <;> simp
        · rcases holddec : decryptFn k
              (construct_nonce (s.rekey_state.epoch - 1) s.recv_direction nonce_counter)
              (construct_aad frame_type flags s.session_id nonce_counter)
              ciphertext with _ | pt1 <;>
          · constructor <;>
              · simp only [CryptoSession.decrypt_frame, hrep, Bool.false_eq_true,
                  if_false, hcur, hold, holddec]
                rcases retention_expired <;> simp
      exact ⟨fun _ _ => hs1, fun _ _ _ => hs1⟩
    · -- current key succeeds: no error, and the old-key premise is false
      constructor
      · intro err herr
        exfalso
        simp [CryptoSession.decrypt_frame, hrep, hcur] at herr
      · intro hnone
        exact absurd hnone (by simp)

end Nomad

namespace Nomad

/-- Witness for C9: on `csEx` with an always-failing AEAD, decryption fails
and leaves the replay window and counters untouched. -/
theorem claim_C9_witness :
    (csEx.decrypt_frame (fun _ _ _ _ => none) false 3 0 5 []).snd.replay_window
        = csEx.replay_window ∧
    (csEx.decrypt_frame (fun _ _ _ _ => none) false 3 0 5 []).snd.rekey_state
        = csEx.rekey_state :=
  (claim_C9 (fun _ _ _ _ => none) false csEx 3 0 5 []).1 .decryptionFailed rfl

/-! ### C4: anti-amplification invariant of `MigrationState` -/

/-- The initial migration state satisfies the anti-amplification
invariant. -/
theorem MigrationState.ampOk_new (init : Nat) : (MigrationState.new init).AmpOk := by
  intro a st hst
  unfold MigrationState.new at hst
  simp only at hst
  by_cases h : a = init
  · simp [h] at hst
    subst hst
    simp [AddressState.init, USIZE_MAX]
  · simp [h] at hst

/-- `on_receive` preserves the invariant. -/
theorem MigrationState.ampOk_on_receive (s : MigrationState) (h : s.AmpOk)
    (from_addr bytes : Nat) : (s.on_receive from_addr bytes).AmpOk := by
  intro a st hst
  unfold MigrationState.on_receive at hst
  simp only at hst
  by_cases ha : a = from_addr
  · simp only [ha, if_true] at hst
    rcases hold : s.addresses from_addr with _ | st0
    · rw [hold] at hst
      simp only [Option.getD_none, Option.some.injEq] at hst
      subst hst
      simp only [AddressState.init]
      refine ⟨?_, ?_, fun _ => ?_⟩
      · exact min_le_right _ _
      · simp [USIZE_MAX]
      · simp
    · rw [hold] at hst
      simp only [Option.getD_some, Option.some.injEq] at hst
      subst hst
      obtain ⟨h1, h2, h3⟩ := h from_addr st0 hold
      refine ⟨min_le_right _ _, h2, fun hv => ?_⟩
      have hmono : st0.bytes_received ≤ satAdd st0.bytes_received bytes :=
        le_min (Nat.le_add_right _ _) h1
      calc st0.bytes_sent ≤ AMPLIFICATION_FACTOR * st0.bytes_received := h3 hv
        _ ≤ AMPLIFICATION_FACTOR * satAdd st0.bytes_received bytes :=
            Nat.mul_le_mul_left _ hmono
  · simp only [ha, if_false] at hst
    exact h a st hst

/-- `on_send` under the `can_send` guard preserves the invariant. -/
theorem MigrationState.ampOk_on_send (s : MigrationState) (h : s.AmpOk)
    (to_addr bytes : Nat) (hguard : s.can_send to_addr bytes = true) :
    (s.on_send to_addr bytes).AmpOk := by
  intro a st hst
  unfold MigrationState.on_send at hst
  rcases hold : s.addresses to_addr with _ | st0
  · rw [hold] at hst
    exact h a st hst
  · rw [hold] at hst
    simp only at hst
    by_cases ha : a = to_addr
    · simp only [ha, if_true, Option.some.injEq] at hst
      subst hst
      obtain ⟨h1, h2, h3⟩ := h to_addr st0 hold
      refine ⟨h1, min_le_right _ _, fun hv => ?_⟩
      have hv0 : st0.validated = false := hv
      unfold MigrationState.can_send at hguard
      rw [hold] at hguard
      simp only [hv0, Bool.false_eq_true, if_false, decide_eq_true_eq] at hguard
      calc satAdd st0.bytes_sent bytes
          ≤ satMul st0.bytes_received AMPLIFICATION_FACTOR := hguard
        _ ≤ st0.bytes_received * AMPLIFICATION_FACTOR := min_le_left _ _
        _ = AMPLIFICATION_FACTOR * st0.bytes_received := Nat.mul_comm _ _
    · simp only [ha, if_false] at hst
      exact h a st hst

/-- `validate_address` preserves the invariant (validated entries carry no
amplification constraint). -/
theorem MigrationState.ampOk_validate (s : MigrationState) (h : s.AmpOk)
    (addr : Nat) (rate_limited : Bool) :
    (s.validate_address addr rate_limited).snd.AmpOk := by
  intro a st hst
  unfold MigrationState.validate_address at hst
  rcases rate_limited with _ | _
  · simp only [Bool.false_eq_true, if_false] at hst
    by_cases ha : a = addr
    · simp only [ha, if_true, Option.some.injEq] at hst
      have hbounds : ((s.addresses addr).getD AddressState.init).bytes_received ≤ USIZE_MAX ∧
          ((s.addresses addr).getD AddressState.init).bytes_sent ≤ USIZE_MAX := by
        rcases hold : s.addresses addr with _ | st0
        · simp [AddressState.init, USIZE_MAX]
        · obtain ⟨h1, h2, _⟩ := h addr st0 hold
          simp [h1, h2]
      subst hst
      exact ⟨hbounds.1, hbounds.2, fun hv => by simp at hv⟩
    · simp only [ha, if_false] at hst
      exact h a st hst
  · simp only [if_true] at hst
    exact h a st hst

end Nomad

namespace Nomad

/-- The invariant is preserved along any guarded event trace. -/
theorem MigrationState.ampOk_run (s : MigrationState) (evs : List MigrationState.Ev)
    (hg : MigrationState.Guarded s evs) (h : s.AmpOk) :
    (s.run evs).AmpOk := by
  induction evs generalizing s with
  | nil => exact h
  | cons e es ih =>
      obtain ⟨hge, hges⟩ := hg
      refine ih (s.step e) hges ?_
      rcases e with ⟨a, n⟩ | ⟨a, n⟩ | ⟨a, rl⟩
      · exact MigrationState.ampOk_on_receive s h a n
      · exact MigrationState.ampOk_on_send s h a n hge
      · exact MigrationState.ampOk_validate s h a rl

/-- **C4.** In every state reachable from `MigrationState::new` by a trace
of `on_receive` / `on_send` / `validate_address` events in which every
`on_send(a, n)` was admitted by `can_send(a, n)`, each address entry that
is not yet validated satisfies `bytes_sent ≤ 3 × bytes_received`; in
particular, for an unvalidated address from which nothing has been
received, `can_send` refuses every positive byte count. -/
theorem claim_C4 (init : Nat) (evs : List MigrationState.Ev)
    (hg : MigrationState.Guarded (MigrationState.new init) evs)
    (a : Nat) (st : AddressState)
    (hst : ((MigrationState.new init).run evs).addresses a = some st)
    (hval : st.validated = false) :
    st.bytes_sent ≤ 3 * st.bytes_received ∧
    (st.bytes_received = 0 → ∀ n, 0 < n →
      ((MigrationState.new init).run evs).can_send a n = false) := by
  have hinv := MigrationState.ampOk_run (MigrationState.new init) evs hg
    (MigrationState.ampOk_new init)
  obtain ⟨h1, h2, h3⟩ := hinv a st hst
  refine ⟨h3 hval, ?_⟩
  intro hrecv n hn
  unfold MigrationState.can_send
  rw [hst]
  simp only [hval, Bool.false_eq_true, if_false]
  have hmul : satMul st.bytes_received AMPLIFICATION_FACTOR = 0 := by
    simp [satMul, hrecv]
  have hadd : 0 < satAdd st.bytes_sent n := by
    unfold satAdd USIZE_MAX
    have : 0 < st.bytes_sent + n := Nat.lt_of_lt_of_le hn (Nat.le_add_left _ _)
    simp only [Nat.lt_min]
    exact ⟨this, by norm_num⟩
  rw [hmul]
  simp only [decide_eq_false_iff_not]
  omega

/-- Witness for C4: after receiving 100 bytes from address 1 and sending
300 (admitted by `can_send`), the unvalidated entry for address 1 sits
exactly at the 3× budget. -/
theorem claim_C4_witness :
    ({ bytes_received := 100, bytes_sent := 300, validated := false } :
        AddressState).bytes_sent ≤
      3 * ({ bytes_received := 100, bytes_sent := 300, validated := false } :
        AddressState).bytes_received :=
  (claim_C4 0 [.recv 1 100, .send 1 300] (by decide) 1
    { bytes_received := 100, bytes_sent := 300, validated := false }
    (by decide) rfl).1

end Nomad

namespace Nomad

/-- `toLeBytes` produces exactly `k` bytes. -/
theorem toLeBytes_length (n k : Nat) : (toLeBytes n k).length = k := by
  induction k generalizing n with
  | zero => rfl
  | succ k ih => simp [toLeBytes, ih]

/-- Little-endian round trip: decoding the `k`-byte encoding of `n < 256^k`
returns `n`. -/
theorem fromLe_toLe (k n : Nat) (h : n < 256 ^ k) :
    fromLeBytes (toLeBytes n k) = n := by
  induction k generalizing n with
  | zero =>
      have : n = 0 := Nat.lt_one_iff.mp (by simpa using h)
      simp [this, toLeBytes, fromLeBytes]
  | succ k ih =>
      have hdiv : n / 256 < 256 ^ k := by
        rw [Nat.div_lt_iff_lt_mul (by norm_num)]
        calc n < 256 ^ (k + 1) := h
          _ = 256 ^ k * 256 := by ring
      simp only [toLeBytes, fromLeBytes, List.foldr_cons]
      rw [show (toLeBytes (n / 256) k).foldr (fun b acc => b + 256 * acc) 0 =
          fromLeBytes (toLeBytes (n / 256) k) from rfl, ih _ hdiv]
      omega

/-- `take` of an append at exactly the prefix length. -/
theorem take_len_append {α : Type} (A rest : List α) (k : Nat)
    (h : A.length = k) : (A ++ rest).take k = A := by
  subst h
  simp

/-- `drop` of an append at exactly the prefix length. -/
theorem drop_len_append {α : Type} (A rest : List α) (k : Nat)
    (h : A.length = k) : (A ++ rest).drop k = rest := by
  subst h
  simp

/-- **C6.** `decode ∘ encode = ok` on every well-formed sync message (the
three `u64` fields in range and the diff length below `2^32`); and the
concrete message (sender 100, acked 50, base 45, diff `[1,2,3,4,5]`)
encodes to 33 bytes starting `64 00 00 00 00 00 00 00` and ending
`01 02 03 04 05`, decoding back to itself. -/
theorem claim_C6 (m : SyncMessage) (h : m.WellFormed) :
    SyncMessage.decode m.encode = .ok m ∧
    (SyncMessage.encode ⟨100, 50, 45, [1, 2, 3, 4, 5]⟩).length = 33 ∧
    (SyncMessage.encode ⟨100, 50, 45, [1, 2, 3, 4, 5]⟩).take 8 =
      [0x64, 0, 0, 0, 0, 0, 0, 0] ∧
    (SyncMessage.encode ⟨100, 50, 45, [1, 2, 3, 4, 5]⟩).drop 28 =
      [1, 2, 3, 4, 5] ∧
    SyncMessage.decode (SyncMessage.encode ⟨100, 50, 45, [1, 2, 3, 4, 5]⟩) =
      .ok ⟨100, 50, 45, [1, 2, 3, 4, 5]⟩ := by
  obtain ⟨h1, h2, h3, h4⟩ := h
  refine ⟨?_, by rfl, by rfl, by rfl, by rfl⟩
  have hAl : (toLeBytes m.sender_state_num 8).length = 8 := toLeBytes_length _ _
  have hBl : (toLeBytes m.acked_state_num 8).length = 8 := toLeBytes_length _ _
  have hCl : (toLeBytes m.base_state_num 8).length = 8 := toLeBytes_length _ _
  have hDl : (toLeBytes (m.diff.length % 2 ^ 32) 4).length = 4 := toLeBytes_length _ _
  have hmod : m.diff.length % 2 ^ 32 = m.diff.length := Nat.mod_eq_of_lt h4
  have henc : m.encode =
      toLeBytes m.sender_state_num 8 ++ (toLeBytes m.acked_state_num 8 ++
        (toLeBytes m.base_state_num 8 ++
          (toLeBytes (m.diff.length % 2 ^ 32) 4 ++ m.diff))) := by
    simp [SyncMessage.encode]
  have hlen : m.encode.length = 28 + m.diff.length := by
    rw [henc]
    simp only [List.length_append, hAl, hBl, hCl, hDl]
    omega
  have ed8 : m.encode.drop 8 =
      toLeBytes m.acked_state_num 8 ++ (toLeBytes m.base_state_num 8 ++
        (toLeBytes (m.diff.length % 2 ^ 32) 4 ++ m.diff)) := by
    rw [henc]
    exact drop_len_append _ _ _ hAl
  have ed16 : m.encode.drop 16 =
      toLeBytes m.base_state_num 8 ++
        (toLeBytes (m.diff.length % 2 ^ 32) 4 ++ m.diff) := by
    have h16 : m.encode.drop 16 = (m.encode.drop 8).drop 8 := by
      rw [List.drop_drop]
    rw [h16, ed8]
    exact drop_len_append _ _ _ hBl
  have ed24 : m.encode.drop 24 =
      toLeBytes (m.diff.length % 2 ^ 32) 4 ++ m.diff := by
    have h24 : m.encode.drop 24 = (m.encode.drop 16).drop 8 := by
      rw [List.drop_drop]
    rw [h24, ed16]
    exact drop_len_append _ _ _ hCl
  have ed28 : m.encode.drop 28 = m.diff := by
    have h28 : m.encode.drop 28 = (m.encode.drop 24).drop 4 := by
      rw [List.drop_drop]
    rw [h28, ed24]
    exact drop_len_append _ _ _ hDl
  have et8 : m.encode.take 8 = toLeBytes m.sender_state_num 8 := by
    rw [henc]
    exact take_len_append _ _ _ hAl
  have et16 : (m.encode.drop 8).take 8 = toLeBytes m.acked_state_num 8 := by
    rw [ed8]
    exact take_len_append _ _ _ hBl
  have et24 : (m.encode.drop 16).take 8 = toLeBytes m.base_state_num 8 := by
    rw [ed16]
    exact take_len_append _ _ _ hCl
  have et28 : (m.encode.drop 24).take 4 = toLeBytes (m.diff.length % 2 ^ 32) 4 := by
    rw [ed24]
    exact take_len_append _ _ _ hDl
  have hsender : fromLeBytes (toLeBytes m.sender_state_num 8) = m.sender_state_num :=
    fromLe_toLe 8 _ (by simpa using h1)
  have hacked : fromLeBytes (toLeBytes m.acked_state_num 8) = m.acked_state_num :=
    fromLe_toLe 8 _ (by simpa using h2)
  have hbase : fromLeBytes (toLeBytes m.base_state_num 8) = m.base_state_num :=
    fromLe_toLe 8 _ (by simpa using h3)
  have hdl : fromLeBytes (toLeBytes (m.diff.length % 2 ^ 32) 4) = m.diff.length := by
    rw [fromLe_toLe 4 _ ?_]
    · exact hmod
    · have := Nat.mod_lt m.diff.length (show 0 < 2 ^ 32 by norm_num)
      simpa using this
  have hc1 : ¬ (28 + m.diff.length < SYNC_MESSAGE_HEADER_SIZE) := by
    unfold SYNC_MESSAGE_HEADER_SIZE
    omega
  have hc2 : ¬ (28 + m.diff.length < SYNC_MESSAGE_HEADER_SIZE + m.diff.length) := by
    unfold SYNC_MESSAGE_HEADER_SIZE
    omega
  unfold SyncMessage.decode
  rw [hlen, et8, et16, et24, et28, hsender, hacked, hbase, hdl]
  rw [if_neg hc1, if_neg hc2]
  have hdropH : m.encode.drop SYNC_MESSAGE_HEADER_SIZE = m.diff := ed28
  rw [hdropH, List.take_length]

/-- Witness for C6: the round trip applied to the concrete example
message. -/
theorem claim_C6_witness :
    SyncMessage.decode (SyncMessage.encode ⟨100, 50, 45, [1, 2, 3, 4, 5]⟩) =
      .ok ⟨100, 50, 45, [1, 2, 3, 4, 5]⟩ :=
  (claim_C6 ⟨100, 50, 45, [1, 2, 3, 4, 5]⟩ (by refine ⟨?_, ?_, ?_, ?_⟩ <;> norm_num)).1

end Nomad

namespace Nomad

/-! ### C5: duplicate/stale handling and at-most-once diff application -/

/-- `process_incoming` never lowers `peer_state_num`. -/
theorem SyncTracker.processIncoming_peer_mono (t : SyncTracker) (msg : SyncMessage) :
    t.peer_state_num ≤ (t.process_incoming msg).snd.peer_state_num := by
  unfold SyncTracker.process_incoming
  by_cases ha : msg.acked_state_num > t.last_acked <;>
    by_cases hs : msg.sender_state_num > t.peer_state_num <;>
      simp [ha, hs] <;> omega

/-- `process_incoming` reports new state exactly for a strictly newer
sender version on a non-ack-only message. -/
theorem SyncTracker.processIncoming_fst (t : SyncTracker) (msg : SyncMessage) :
    (t.process_incoming msg).fst =
      (decide (msg.sender_state_num > t.peer_state_num) && !msg.is_ack_only) := by
  unfold SyncTracker.process_incoming
  by_cases ha : msg.acked_state_num > t.last_acked <;> simp [ha]

/-- When the message carries a strictly newer sender version,
`peer_state_num` becomes that version. -/
theorem SyncTracker.processIncoming_peer_of_gt (t : SyncTracker) (msg : SyncMessage)
    (h : msg.sender_state_num > t.peer_state_num) :
    (t.process_incoming msg).snd.peer_state_num = msg.sender_state_num := by
  unfold SyncTracker.process_incoming
  by_cases ha : msg.acked_state_num > t.last_acked <;> simp [ha, h]

/-- When the sender version is not newer, `peer_state_num` is unchanged. -/
theorem SyncTracker.processIncoming_peer_of_le (t : SyncTracker) (msg : SyncMessage)
    (h : msg.sender_state_num ≤ t.peer_state_num) :
    (t.process_incoming msg).snd.peer_state_num = t.peer_state_num := by
  unfold SyncTracker.process_incoming
  have h' : ¬ msg.sender_state_num > t.peer_state_num := Nat.not_lt.mpr h
  by_cases ha : msg.acked_state_num > t.last_acked <;> simp [ha, h']

/-- `process_incoming` raises `last_acked` to the incoming ack field. -/
theorem SyncTracker.processIncoming_last_acked (t : SyncTracker) (msg : SyncMessage) :
    (t.process_incoming msg).snd.last_acked =
      max t.last_acked msg.acked_state_num := by
  unfold SyncTracker.process_incoming
  by_cases ha : msg.acked_state_num > t.last_acked
  · by_cases hs : msg.sender_state_num > t.peer_state_num <;>
      simp [ha, hs, Nat.max_eq_right (Nat.le_of_lt ha)]
  · have hle : msg.acked_state_num ≤ t.last_acked := Nat.not_lt.mp ha
    by_cases hs : msg.sender_state_num > t.peer_state_num <;>
      simp [ha, hs, Nat.max_eq_left hle]

/-- `update_acked_snapshot` changes neither the tracker nor the state. -/
theorem SyncEngine.updateAckedSnapshot_tracker {σ δ : Type} (e : SyncEngine σ δ) :
    e.update_acked_snapshot.tracker = e.tracker ∧
      e.update_acked_snapshot.state = e.state := by
  unfold SyncEngine.update_acked_snapshot
  cases hs : e.state with
  | none => exact ⟨rfl, hs⟩
  | some st =>
      by_cases h : e.tracker.last_acked > 0
      · rw [if_pos h]
        exact ⟨rfl, rfl⟩
      · rw [if_neg h]
        exact ⟨rfl, hs⟩

/-- Whatever branch `process_message` takes on an initialized engine, the
resulting tracker is the one produced by `process_incoming`. -/
theorem SyncEngine.processMessage_tracker {σ δ : Type} (e : SyncEngine σ δ)
    (st : σ) (msg : SyncMessage) (hstate : e.state = some st) :
    (e.process_message msg).snd.tracker = (e.tracker.process_incoming msg).snd := by
  unfold SyncEngine.process_message
  rcases hpi : e.tracker.process_incoming msg with ⟨is_new, tr'⟩
  simp only [hstate, hpi]
  by_cases hao : msg.is_ack_only
  · simp only [hao, if_true]
    by_cases hack : msg.acked_state_num > 0 <;>
      simp [hack, (SyncEngine.updateAckedSnapshot_tracker _).1]
  · simp only [hao, if_false]
    rcases is_new with _ | _
    · simp
    · simp only [Bool.not_true, if_false, if_true]
      by_cases hde : msg.diff.isEmpty
      · simp only [hde, if_true]
        by_cases hack : msg.acked_state_num > 0 <;>
          simp [hack, (SyncEngine.updateAckedSnapshot_tracker _).1]
      · simp only [hde, if_false]
        rcases hdec : e.decode_diff msg.diff with s | d
        · simp [hdec]
        · rcases happ : e.apply_diff st d with s | st'
          · simp [hdec, happ]
          · by_cases hack : msg.acked_state_num > 0 <;>
              simp [hdec, happ, hack, (SyncEngine.updateAckedSnapshot_tracker _).1]

/-- `process_message` never lowers the stored peer version. -/
theorem SyncEngine.processMessage_peer_mono {σ δ : Type} (e : SyncEngine σ δ)
    (msg : SyncMessage) :
    e.tracker.peer_state_num ≤ (e.process_message msg).snd.tracker.peer_state_num := by
  rcases hs : e.state with _ | st
  · unfold SyncEngine.process_message
    rw [hs]
  · rw [SyncEngine.processMessage_tracker e st msg hs]
    exact SyncTracker.processIncoming_peer_mono e.tracker msg

/-- A message whose diff actually gets applied carries a sender version
strictly above the stored peer version, and afterwards the stored peer
version equals that sender version. -/
theorem SyncEngine.applies_imp {σ δ : Type} (e : SyncEngine σ δ)
    (msg : SyncMessage) (h : e.applies msg = true) :
    e.tracker.peer_state_num < msg.sender_state_num ∧
      (e.process_message msg).snd.tracker.peer_state_num = msg.sender_state_num := by
  unfold SyncEngine.applies at h
  rcases hres : (e.process_message msg).fst with err | r
  · rw [hres] at h
    simp at h
  · rw [hres] at h
    rcases r <;> simp at h
    -- r = .updated, h : ¬ msg.diff.isEmpty
    rcases hs : e.state with _ | st
    · exfalso
      unfold SyncEngine.process_message at hres
      rw [hs] at hres
      simp at hres
    · have hgt : e.tracker.peer_state_num < msg.sender_state_num := by
        by_contra hle
        have hle' : msg.sender_state_num ≤ e.tracker.peer_state_num := Nat.not_lt.mp hle
        have hfst := SyncTracker.processIncoming_fst e.tracker msg
        have hfalse : (e.tracker.process_incoming msg).fst = false := by
          rw [hfst]
          simp [Nat.not_lt.mpr hle']
        unfold SyncEngine.process_message at hres
        rcases hpi : e.tracker.process_incoming msg with ⟨is_new, tr'⟩
        rw [hpi] at hfalse
        simp only at hfalse
        subst hfalse
        rw [hs, hpi] at hres
        by_cases hao : msg.is_ack_only
        · simp [hao] at hres
        · simp [hao] at hres
      refine ⟨hgt, ?_⟩
      rw [SyncEngine.processMessage_tracker e st msg hs]
      exact SyncTracker.processIncoming_peer_of_gt e.tracker msg hgt

/-- Once the stored peer version has reached `v`, no later message gets a
diff applied under sender version `v`. -/
theorem SyncEngine.appliedCount_eq_zero {σ δ : Type} (e : SyncEngine σ δ)
    (v : Nat) (msgs : List SyncMessage) (h : v ≤ e.tracker.peer_state_num) :
    SyncEngine.appliedCount e v msgs = 0 := by
  induction msgs generalizing e with
  | nil => rfl
  | cons m ms ih =>
      unfold SyncEngine.appliedCount
      have hcond : ¬ (e.applies m = true ∧ m.sender_state_num = v) := by
        rintro ⟨happ, hv⟩
        have := (SyncEngine.applies_imp e m happ).1
        omega
      rw [if_neg hcond]
      have hmono := SyncEngine.processMessage_peer_mono e m
      simpa using ih _ (le_trans h hmono)

/-- At-most-once: in any processed message sequence, a diff is applied
under a given sender version at most once. -/
theorem SyncEngine.appliedCount_le_one {σ δ : Type} (e : SyncEngine σ δ)
    (v : Nat) (msgs : List SyncMessage) :
    SyncEngine.appliedCount e v msgs ≤ 1 := by
  induction msgs generalizing e with
  | nil => exact Nat.zero_le 1
  | cons m ms ih =>
      unfold SyncEngine.appliedCount
      by_cases hcond : e.applies m = true ∧ m.sender_state_num = v
      · rw [if_pos hcond]
        have hpeer := (SyncEngine.applies_imp e m hcond.1).2
        have : SyncEngine.appliedCount (e.process_message m).snd v ms = 0 := by
          refine SyncEngine.appliedCount_eq_zero _ v ms ?_
          rw [hpeer, hcond.2]
        omega
      · rw [if_neg hcond]
        simpa using ih (e.process_message m).snd

end Nomad

namespace Nomad

/-- **C5.** (i) `SyncReceiver::receive` classifies a message with sender
version strictly below the stored peer version as stale and leaves the
receiver unchanged; (ii) one equal to it (and > 0) as duplicate, likewise
unchanged; (iii) on an initialized engine, `process_message` applies no
diff for any message whose sender version is not strictly above the stored
peer version — it returns `AckOnly`/`Duplicate`, keeps the local state and
peer version, and uses the message only to raise `last_acked`; (iv) across
any processed message sequence, a diff is applied under a given sender
version at most once. -/
theorem claim_C5 :
    (∀ (r : SyncReceiver) (msg : SyncMessage),
      msg.sender_state_num < r.highest_received →
      r.receive msg = (.stale msg.sender_state_num r.highest_received, r)) ∧
    (∀ (r : SyncReceiver) (msg : SyncMessage),
      msg.sender_state_num = r.highest_received → 0 < msg.sender_state_num →
      r.receive msg = (.duplicate msg.sender_state_num, r)) ∧
    (∀ (σ δ : Type) (e : SyncEngine σ δ) (st : σ) (msg : SyncMessage),
      e.state = some st → msg.sender_state_num ≤ e.tracker.peer_state_num →
      (e.process_message msg).fst =
        .ok (if msg.is_ack_only then .ackOnly else .duplicate) ∧
      (e.process_message msg).snd.state = e.state ∧
      (e.process_message msg).snd.tracker.peer_state_num =
        e.tracker.peer_state_num ∧
      (e.process_message msg).snd.tracker.last_acked =
        max e.tracker.last_acked msg.acked_state_num) ∧
    (∀ (σ δ : Type) (e : SyncEngine σ δ) (v : Nat) (msgs : List SyncMessage),
      SyncEngine.appliedCount e v msgs ≤ 1) := by
  refine ⟨?_, ?_, ?_, fun σ δ e v msgs => SyncEngine.appliedCount_le_one e v msgs⟩
  · intro r msg h
    unfold SyncReceiver.receive
    rw [if_pos h]
  · intro r msg h h0
    unfold SyncReceiver.receive
    rw [if_neg (by omega), if_pos ⟨h, h0⟩]
  · intro σ δ e st msg hstate hle
    have hnew : (e.tracker.process_incoming msg).fst = false := by
      rw [SyncTracker.processIncoming_fst]
      simp [Nat.not_lt.mpr hle]
    have htr := SyncEngine.processMessage_tracker e st msg hstate
    refine ⟨?_, ?_,
      (congrArg SyncTracker.peer_state_num htr).trans
        (SyncTracker.processIncoming_peer_of_le e.tracker msg hle),
      (congrArg SyncTracker.last_acked htr).trans
        (SyncTracker.processIncoming_last_acked e.tracker msg)⟩
    · unfold SyncEngine.process_message
      rcases hpi : e.tracker.process_incoming msg with ⟨is_new, tr'⟩
      rw [hpi] at hnew
      simp only at hnew
      subst hnew
      rw [hstate]
      by_cases hao : msg.is_ack_only
      · simp [hao]
      · simp [hao]
    · unfold SyncEngine.process_message
      rcases hpi : e.tracker.process_incoming msg with ⟨is_new, tr'⟩
      rw [hpi] at hnew
      simp only at hnew
      subst hnew
      rw [hstate]
      by_cases hao : msg.is_ack_only
      · by_cases hack : msg.acked_state_num > 0 <;>
          simp [hao, hack, (SyncEngine.updateAckedSnapshot_tracker _).2]
      · simp [hao]

/-- Witness for C5: concrete stale and duplicate classifications, a
concrete no-apply ack-only message on `testEngine`, and the at-most-once
bound on a concrete message list. -/
theorem claim_C5_witness :
    (SyncReceiver.receive ⟨5, 0⟩ ⟨3, 0, 0, [1]⟩ =
      (.stale 3 5, (⟨5, 0⟩ : SyncReceiver))) ∧
    (SyncReceiver.receive ⟨5, 0⟩ ⟨5, 0, 0, [1]⟩ =
      (.duplicate 5, (⟨5, 0⟩ : SyncReceiver))) ∧
    (testEngine.process_message ⟨0, 2, 0, []⟩).fst = .ok .ackOnly ∧
    SyncEngine.appliedCount testEngine 1 [⟨1, 0, 0, [9]⟩, ⟨1, 0, 0, [9]⟩] ≤ 1 := by
  have h := claim_C5
  refine ⟨h.1 ⟨5, 0⟩ ⟨3, 0, 0, [1]⟩ (by norm_num),
    h.2.1 ⟨5, 0⟩ ⟨5, 0, 0, [1]⟩ rfl (by norm_num), ?_,
    h.2.2.2 Int Int testEngine 1 [⟨1, 0, 0, [9]⟩, ⟨1, 0, 0, [9]⟩]⟩
  have hc := (h.2.2.1 Int Int testEngine 0 ⟨0, 2, 0, []⟩ rfl (Nat.le_refl 0)).1
  simpa [SyncMessage.is_ack_only] using hc

end Nomad
